import Mathlib

/-!
Verification of the element-pooling utility (`src/lib/DOMutil.js`) and the
`Graph2d` composition root (`src/lib/timeline/Graph2d.js`) of the
vis-timeline repository.

The pool container (`JSONcontainer` in the source) is a JavaScript object
mapping an element tag name to `{used: [], redundant: []}`.  We embed it as
an association list with unique keys (JavaScript object keys are unique and
iterated in insertion order).  DOM/SVG nodes are identified by natural
numbers; the display container (`svgContainer`/`DOMContainer`) is embedded
as the ordered list of node ids attached under it, and every
`parentNode.removeChild` call performed by `cleanupElements` is appended to
a removal log so that "detached exactly once" is expressible.
-/

set_option autoImplicit false

namespace VisTimeline

/-- The `{used: [], redundant: []}` record kept per tag name in the
`JSONcontainer` of `src/lib/DOMutil.js`. -/
structure TagPool where
  used : List Nat
  redundant : List Nat
deriving DecidableEq, Repr

/-- The `JSONcontainer`: a JavaScript object keyed by element tag name.
Embedded as an association list in key insertion order. -/
abbrev JSONContainer := List (String × TagPool)

/-- Property read `JSONcontainer[tag]`: the first (in a JavaScript object:
the only) entry with the given key. -/
def getTag : JSONContainer → String → Option TagPool
  | [], _ => none
  | (t0, p) :: rest, t => if t0 = t then some p else getTag rest t

/-- Property write `JSONcontainer[tag] = pool`: update the entry in place
when the key exists, otherwise append a new entry (JavaScript objects keep
insertion order). -/
def setTag : JSONContainer → String → TagPool → JSONContainer
  | [], t, p => [(t, p)]
  | (t0, p0) :: rest, t, p =>
      if t0 = t then (t, p) :: rest else (t0, p0) :: setTag rest t p

/-- All node ids recorded in a container, `used` before `redundant`, in key
order. -/
def trackedOf (c : JSONContainer) : List Nat :=
  (c.map (fun e => e.2.used ++ e.2.redundant)).flatten

/-- All node ids recorded in `used` lists, in key order. -/
def usedNodes (c : JSONContainer) : List Nat :=
  (c.map (fun e => e.2.used)).flatten

/-- All node ids recorded in `redundant` lists, in key order. -/
def redundantNodes (c : JSONContainer) : List Nat :=
  (c.map (fun e => e.2.redundant)).flatten

/-- `prepareElements` (DOMutil.js lines 8-16): for every tag,
`redundant = used; used = []` (the previous `redundant` list is
overwritten). -/
def prepareElements (c : JSONContainer) : JSONContainer :=
  c.map (fun e => (e.1, ⟨[], e.2.used⟩))

/-- The full pool state: the `JSONcontainer`, the list of node ids attached
under the display container, the next fresh node id, and the log of
`removeChild` calls made so far. -/
structure PoolState where
  container : JSONContainer
  dom : List Nat
  nextId : Nat
  removals : List Nat
deriving DecidableEq, Repr

/-- A pool with no tags and an empty display container. -/
def emptyPoolState : PoolState := ⟨[], [], 0, []⟩

/-- `cleanupElements` (DOMutil.js lines 25-36): iterate the tags in order;
for each tag remove every node of its `redundant` list from its parent
(`parentNode.removeChild`, embedded as erasing the id from the attached
list and logging it), then set `redundant = []`. -/
def cleanupElements : JSONContainer → List Nat → List Nat →
    JSONContainer × List Nat × List Nat
  | [], dom, removals => ([], dom, removals)
  | (t, p) :: rest, dom, removals =>
      let dom1 := p.redundant.foldl List.erase dom
      let r := cleanupElements rest dom1 (removals ++ p.redundant)
      ((t, ⟨p.used, []⟩) :: r.1, r.2)

/-- State-level `prepareElements`. -/
def prepareState (s : PoolState) : PoolState :=
  { s with container := prepareElements s.container }

/-- State-level `cleanupElements`. -/
def cleanupState (s : PoolState) : PoolState :=
  let r := cleanupElements s.container s.dom s.removals
  { s with container := r.1, dom := r.2.1, removals := r.2.2 }

/-- `resetElements` (DOMutil.js lines 42-46): `prepareElements`,
`cleanupElements`, `prepareElements`. -/
def resetElements (s : PoolState) : PoolState :=
  prepareState (cleanupState (prepareState s))

/-- `getSVGElement` (DOMutil.js lines 58-81).  If the tag has been seen and
its `redundant` list is non-empty, take its first element (`shift`);
otherwise create a fresh element (`document.createElementNS`) and append it
to the display container, creating the `{used: [], redundant: []}` record
when the tag is new.  In all cases push the element onto the `used` list
and return it. -/
def getSVGElement (t : String) (s : PoolState) : Nat × PoolState :=
  match getTag s.container t with
  | some p =>
      match p.redundant with
      | e :: rest =>
          (e, { s with container := setTag s.container t ⟨p.used ++ [e], rest⟩ })
      | [] =>
          let e := s.nextId
          (e, { s with
                  container := setTag s.container t ⟨p.used ++ [e], []⟩,
                  dom := s.dom ++ [e],
                  nextId := s.nextId + 1 })
  | none =>
      let e := s.nextId
      (e, { s with
              container := setTag s.container t ⟨[e], []⟩,
              dom := s.dom ++ [e],
              nextId := s.nextId + 1 })

/-- Insertion of `e` before the first occurrence of `r`
(`DOMContainer.insertBefore(element, insertBefore)`).  When `r` is not a
child the browser would throw; the claims only exercise attached reference
nodes, for which this embedding inserts at the right position. -/
def insertBeforeList (l : List Nat) (e r : Nat) : List Nat :=
  match l with
  | [] => [e]
  | x :: xs => if x = r then e :: x :: xs else x :: insertBeforeList xs e r

/-- Attach a fresh element: `insertBefore` when a reference node is
supplied, `appendChild` otherwise (DOMutil.js lines 106-111 and 118-123). -/
def attachDOM (dom : List Nat) (e : Nat) (ib : Option Nat) : List Nat :=
  match ib with
  | some r => insertBeforeList dom e r
  | none => dom ++ [e]

/-- `getDOMElement` (DOMutil.js lines 94-127): as `getSVGElement`, except a
fresh element is created with `document.createElement` and attached with
`insertBefore` when the fourth argument is supplied. -/
def getDOMElement (t : String) (ib : Option Nat) (s : PoolState) : Nat × PoolState :=
  match getTag s.container t with
  | some p =>
      match p.redundant with
      | e :: rest =>
          (e, { s with container := setTag s.container t ⟨p.used ++ [e], rest⟩ })
      | [] =>
          let e := s.nextId
          (e, { s with
                  container := setTag s.container t ⟨p.used ++ [e], []⟩,
                  dom := attachDOM s.dom e ib,
                  nextId := s.nextId + 1 })
  | none =>
      let e := s.nextId
      (e, { s with
              container := setTag s.container t ⟨[e], []⟩,
              dom := attachDOM s.dom e ib,
              nextId := s.nextId + 1 })

/-- An acquisition call against the pool. -/
inductive GetOp where
  | svg (t : String)
  | dom (t : String) (ib : Option Nat)
deriving DecidableEq, Repr

/-- Run one acquisition call, keeping only the state. -/
def applyGet (s : PoolState) (g : GetOp) : PoolState :=
  match g with
  | .svg t => (getSVGElement t s).2
  | .dom t ib => (getDOMElement t ib s).2

/-- One pool operation, as enumerated by the spec. -/
inductive PoolOp where
  | prepare
  | cleanup
  | reset
  | getSVG (t : String)
  | getDOM (t : String) (ib : Option Nat)
deriving DecidableEq, Repr

/-- Run one pool operation. -/
def applyOp (s : PoolState) : PoolOp → PoolState
  | .prepare => prepareState s
  | .cleanup => cleanupState s
  | .reset => resetElements s
  | .getSVG t => (getSVGElement t s).2
  | .getDOM t ib => (getDOMElement t ib s).2

/-- Run a sequence of pool operations. -/
def applyOps (ops : List PoolOp) (s : PoolState) : PoolState :=
  ops.foldl applyOp s

/-! ### Container bookkeeping lemmas -/

theorem trackedOf_nil : trackedOf [] = [] := rfl

theorem trackedOf_cons (e : String × TagPool) (c : JSONContainer) :
    trackedOf (e :: c) = e.2.used ++ e.2.redundant ++ trackedOf c := by
  simp [trackedOf]

theorem usedNodes_cons (e : String × TagPool) (c : JSONContainer) :
    usedNodes (e :: c) = e.2.used ++ usedNodes c := by
  simp [usedNodes]

theorem redundantNodes_cons (e : String × TagPool) (c : JSONContainer) :
    redundantNodes (e :: c) = e.2.redundant ++ redundantNodes c := by
  simp [redundantNodes]

theorem trackedOf_append (a b : JSONContainer) :
    trackedOf (a ++ b) = trackedOf a ++ trackedOf b := by
  simp [trackedOf]

theorem mem_trackedOf_iff (c : JSONContainer) (n : Nat) :
    n ∈ trackedOf c ↔ n ∈ usedNodes c ∨ n ∈ redundantNodes c := by
  induction c with
  | nil => simp [trackedOf, usedNodes, redundantNodes]
  | cons e rest ih =>
      simp only [trackedOf_cons, usedNodes_cons, redundantNodes_cons, List.mem_append, ih]
      tauto

/-- The `used` lists are collectively a sub-list of the tracked nodes. -/
theorem usedNodes_sublist_trackedOf (c : JSONContainer) :
    List.Sublist (usedNodes c) (trackedOf c) := by
  induction c with
  | nil => simp [trackedOf, usedNodes]
  | cons e rest ih =>
      rw [usedNodes_cons, trackedOf_cons, List.append_assoc]
      exact (List.Sublist.refl e.2.used).append
        (ih.trans (List.sublist_append_right e.2.redundant (trackedOf rest)))

/-- The `redundant` lists are collectively a sub-list of the tracked nodes. -/
theorem redundantNodes_sublist_trackedOf (c : JSONContainer) :
    List.Sublist (redundantNodes c) (trackedOf c) := by
  induction c with
  | nil => simp [trackedOf, redundantNodes]
  | cons e rest ih =>
      rw [redundantNodes_cons, trackedOf_cons, List.append_assoc]
      exact (((List.Sublist.refl e.2.redundant).append ih).trans
        (List.sublist_append_right e.2.used (e.2.redundant ++ trackedOf rest)))

/-- The tracked nodes are a permutation of used-then-redundant. -/
theorem trackedOf_perm_used_append_redundant (c : JSONContainer) :
    List.Perm (trackedOf c) (usedNodes c ++ redundantNodes c) := by
  induction c with
  | nil => simp [trackedOf, usedNodes, redundantNodes]
  | cons e rest ih =>
      rw [trackedOf_cons, usedNodes_cons, redundantNodes_cons]
      refine List.perm_iff_count.mpr ?_
      intro a
      have hc := List.perm_iff_count.mp ih a
      simp only [List.count_append] at *
      omega

theorem getTag_setTag_self (c : JSONContainer) (t : String) (p : TagPool) :
    getTag (setTag c t p) t = some p := by
  induction c with
  | nil => simp [setTag, getTag]
  | cons e rest ih =>
      by_cases h : e.1 = t
      · simp [setTag, h, getTag]
      · simp [setTag, h, getTag, ih]

theorem getTag_setTag_ne (c : JSONContainer) (t t' : String) (p : TagPool)
    (h : t ≠ t') : getTag (setTag c t p) t' = getTag c t' := by
  induction c with
  | nil => simp [setTag, getTag, h]
  | cons e rest ih =>
      obtain ⟨t0, p0⟩ := e
      by_cases he : t0 = t
      · subst he
        simp [setTag, getTag, h]
      · by_cases he' : t0 = t'
        · subst he'
          simp [setTag, he, getTag]
        · simp [setTag, he, getTag, he', ih]

theorem setTag_of_getTag_none (c : JSONContainer) (t : String) (p : TagPool)
    (h : getTag c t = none) : setTag c t p = c ++ [(t, p)] := by
  induction c with
  | nil => simp [setTag]
  | cons e rest ih =>
      by_cases he : e.1 = t
      · simp [getTag, he] at h
      · simp only [getTag, he, if_false] at h
        simp [setTag, he, ih h]

/-- Count balance of `setTag` on the tracked nodes: the contribution of the
old pool at the key is replaced with that of the new pool. -/
theorem count_trackedOf_setTag (c : JSONContainer) (t : String) (p p' : TagPool)
    (h : getTag c t = some p) (n : Nat) :
    (trackedOf (setTag c t p')).count n + (p.used ++ p.redundant).count n
      = (trackedOf c).count n + (p'.used ++ p'.redundant).count n := by
  induction c with
  | nil => simp [getTag] at h
  | cons e rest ih =>
      by_cases he : e.1 = t
      · simp only [getTag, he, if_true, Option.some.injEq] at h
        subst h
        simp [setTag, he, trackedOf_cons, List.count_append]
        omega
      · simp only [getTag, he, if_false] at h
        have := ih h
        simp only [setTag, he, if_false, trackedOf_cons, List.count_append] at *
        omega

/-! ### Effect of `prepareElements` -/

theorem getTag_prepareElements (c : JSONContainer) (t : String) :
    getTag (prepareElements c) t
      = (getTag c t).map (fun p => (⟨[], p.used⟩ : TagPool)) := by
  induction c with
  | nil => simp [prepareElements, getTag]
  | cons e rest ih =>
      by_cases he : e.1 = t
      · simp [prepareElements, getTag, he]
      · simpa [prepareElements, getTag, he] using ih

theorem usedNodes_prepareElements (c : JSONContainer) :
    usedNodes (prepareElements c) = [] := by
  induction c with
  | nil => rfl
  | cons e rest ih => simpa [prepareElements, usedNodes_cons] using ih

theorem redundantNodes_prepareElements (c : JSONContainer) :
    redundantNodes (prepareElements c) = usedNodes c := by
  induction c with
  | nil => rfl
  | cons e rest ih =>
      simp only [prepareElements, List.map_cons, redundantNodes_cons, usedNodes_cons] at *
      rw [ih]

theorem trackedOf_prepareElements (c : JSONContainer) :
    trackedOf (prepareElements c) = usedNodes c := by
  induction c with
  | nil => rfl
  | cons e rest ih =>
      simp only [prepareElements, List.map_cons, trackedOf_cons, usedNodes_cons] at *
      rw [ih]
      simp

theorem trackedOf_eq_usedNodes_of_redundant_empty (c : JSONContainer)
    (h : ∀ e ∈ c, e.2.redundant = []) : trackedOf c = usedNodes c := by
  induction c with
  | nil => rfl
  | cons e rest ih =>
      rw [trackedOf_cons, usedNodes_cons, h e (by simp),
        ih (fun e he => h e (by simp [he]))]
      simp

/-! ### Effect of `cleanupElements` -/

theorem cleanupElements_container (c : JSONContainer) (dom removals : List Nat) :
    (cleanupElements c dom removals).1
      = c.map (fun e => (e.1, (⟨e.2.used, []⟩ : TagPool))) := by
  induction c generalizing dom removals with
  | nil => rfl
  | cons e rest ih => simp [cleanupElements, ih]

theorem cleanupElements_dom (c : JSONContainer) (dom removals : List Nat) :
    (cleanupElements c dom removals).2.1 = dom.diff (redundantNodes c) := by
  induction c generalizing dom removals with
  | nil => simp [cleanupElements, redundantNodes]
  | cons e rest ih =>
      simp only [cleanupElements, ih, redundantNodes_cons, List.diff_append,
        List.diff_eq_foldl, List.foldl_append]

theorem cleanupElements_removals (c : JSONContainer) (dom removals : List Nat) :
    (cleanupElements c dom removals).2.2 = removals ++ redundantNodes c := by
  induction c generalizing dom removals with
  | nil => simp [cleanupElements, redundantNodes]
  | cons e rest ih =>
      simp [cleanupElements, ih, redundantNodes_cons]

theorem usedNodes_map_clean (c : JSONContainer) :
    usedNodes (c.map (fun e => (e.1, (⟨e.2.used, []⟩ : TagPool)))) = usedNodes c := by
  induction c with
  | nil => rfl
  | cons e rest ih => simp [usedNodes_cons, ih]

theorem trackedOf_map_clean (c : JSONContainer) :
    trackedOf (c.map (fun e => (e.1, (⟨e.2.used, []⟩ : TagPool)))) = usedNodes c := by
  induction c with
  | nil => rfl
  | cons e rest ih => simp [trackedOf_cons, usedNodes_cons, ih]

theorem redundantNodes_map_clean (c : JSONContainer) :
    redundantNodes (c.map (fun e => (e.1, (⟨e.2.used, []⟩ : TagPool)))) = [] := by
  induction c with
  | nil => rfl
  | cons e rest ih => simp [redundantNodes_cons, ih]

/-! ### Effect of the acquisition functions on the tracked nodes -/

theorem trackedOf_setTag_reuse (c : JSONContainer) (t : String)
    (u : List Nat) (e : Nat) (rest : List Nat)
    (h : getTag c t = some ⟨u, e :: rest⟩) :
    List.Perm (trackedOf (setTag c t ⟨u ++ [e], rest⟩)) (trackedOf c) := by
  refine List.perm_iff_count.mpr fun n => ?_
  have hc := count_trackedOf_setTag c t ⟨u, e :: rest⟩ ⟨u ++ [e], rest⟩ h n
  by_cases hn : e = n
  · subst hn
    simp only [List.count_append, List.count_cons, List.count_nil] at hc ⊢
    simp at hc ⊢
    omega
  · simp only [List.count_append, List.count_cons, List.count_nil] at hc ⊢
    simp [hn] at hc ⊢
    omega

theorem trackedOf_setTag_push (c : JSONContainer) (t : String)
    (u : List Nat) (e : Nat) (h : getTag c t = some ⟨u, []⟩) :
    List.Perm (trackedOf (setTag c t ⟨u ++ [e], []⟩)) (e :: trackedOf c) := by
  refine List.perm_iff_count.mpr fun n => ?_
  have hc := count_trackedOf_setTag c t ⟨u, []⟩ ⟨u ++ [e], []⟩ h n
  by_cases hn : e = n
  · subst hn
    simp only [List.count_append, List.count_cons, List.count_nil] at hc ⊢
    simp at hc ⊢
    omega
  · simp only [List.count_append, List.count_cons, List.count_nil] at hc ⊢
    simp [hn] at hc ⊢
    omega

theorem trackedOf_setTag_new (c : JSONContainer) (t : String) (e : Nat)
    (h : getTag c t = none) :
    trackedOf (setTag c t ⟨[e], []⟩) = trackedOf c ++ [e] := by
  rw [setTag_of_getTag_none c t _ h, trackedOf_append]
  simp [trackedOf]

/-! ### Shape lemmas for `getSVGElement` and `getDOMElement` -/

theorem getSVGElement_reuse (t : String) (s : PoolState)
    (u : List Nat) (e : Nat) (rest : List Nat)
    (h : getTag s.container t = some ⟨u, e :: rest⟩) :
    getSVGElement t s
      = (e, { s with container := setTag s.container t ⟨u ++ [e], rest⟩ }) := by
  simp [getSVGElement, h]

theorem getSVGElement_fresh_existing (t : String) (s : PoolState) (u : List Nat)
    (h : getTag s.container t = some ⟨u, []⟩) :
    getSVGElement t s
      = (s.nextId, { s with
          container := setTag s.container t ⟨u ++ [s.nextId], []⟩,
          dom := s.dom ++ [s.nextId],
          nextId := s.nextId + 1 }) := by
  simp [getSVGElement, h]

theorem getSVGElement_fresh_new (t : String) (s : PoolState)
    (h : getTag s.container t = none) :
    getSVGElement t s
      = (s.nextId, { s with
          container := setTag s.container t ⟨[s.nextId], []⟩,
          dom := s.dom ++ [s.nextId],
          nextId := s.nextId + 1 }) := by
  simp [getSVGElement, h]

theorem getDOMElement_reuse (t : String) (ib : Option Nat) (s : PoolState)
    (u : List Nat) (e : Nat) (rest : List Nat)
    (h : getTag s.container t = some ⟨u, e :: rest⟩) :
    getDOMElement t ib s
      = (e, { s with container := setTag s.container t ⟨u ++ [e], rest⟩ }) := by
  simp [getDOMElement, h]

theorem getDOMElement_fresh_existing (t : String) (ib : Option Nat) (s : PoolState)
    (u : List Nat) (h : getTag s.container t = some ⟨u, []⟩) :
    getDOMElement t ib s
      = (s.nextId, { s with
          container := setTag s.container t ⟨u ++ [s.nextId], []⟩,
          dom := attachDOM s.dom s.nextId ib,
          nextId := s.nextId + 1 }) := by
  simp [getDOMElement, h]

theorem getDOMElement_fresh_new (t : String) (ib : Option Nat) (s : PoolState)
    (h : getTag s.container t = none) :
    getDOMElement t ib s
      = (s.nextId, { s with
          container := setTag s.container t ⟨[s.nextId], []⟩,
          dom := attachDOM s.dom s.nextId ib,
          nextId := s.nextId + 1 }) := by
  simp [getDOMElement, h]

theorem insertBeforeList_perm (l : List Nat) (e r : Nat) :
    List.Perm (insertBeforeList l e r) (e :: l) := by
  induction l with
  | nil => simp [insertBeforeList]
  | cons x xs ih =>
      by_cases hx : x = r
      · simp [insertBeforeList, hx]
      · simp only [insertBeforeList, hx, if_false]
        exact (ih.cons x).trans (List.Perm.swap e x xs)

theorem attachDOM_perm (dom : List Nat) (e : Nat) (ib : Option Nat) :
    List.Perm (attachDOM dom e ib) (e :: dom) := by
  cases ib with
  | none =>
      simp only [attachDOM]
      exact (List.perm_append_comm : List.Perm (dom ++ [e]) ([e] ++ dom))
  | some r => simpa [attachDOM] using insertBeforeList_perm dom e r

theorem attachDOM_nodup (dom : List Nat) (e : Nat) (ib : Option Nat)
    (hd : dom.Nodup) (he : e ∉ dom) : (attachDOM dom e ib).Nodup :=
  ((attachDOM_perm dom e ib).nodup_iff).mpr (List.nodup_cons.mpr ⟨he, hd⟩)

theorem mem_attachDOM (dom : List Nat) (e : Nat) (ib : Option Nat) (n : Nat) :
    n ∈ attachDOM dom e ib ↔ n = e ∨ n ∈ dom := by
  rw [(attachDOM_perm dom e ib).mem_iff]
  simp

/-- `getSVGElement` is `getDOMElement` without an `insertBefore` argument:
both take the same pooled-vs-fresh decision and attach fresh nodes at the
end of the display container. -/
theorem getSVGElement_eq_getDOMElement (t : String) (s : PoolState) :
    getSVGElement t s = getDOMElement t none s := by
  rcases hget : getTag s.container t with _ | ⟨u, red⟩
  · rw [getSVGElement_fresh_new _ _ hget, getDOMElement_fresh_new _ _ _ hget]
    rfl
  · rcases red with _ | ⟨e, rest⟩
    · rw [getSVGElement_fresh_existing _ _ _ hget,
        getDOMElement_fresh_existing _ _ _ _ hget]
      rfl
    · rw [getSVGElement_reuse _ _ _ _ _ hget, getDOMElement_reuse _ _ _ _ _ _ hget]

/-! ### The pool invariant

Every node recorded in a `used` or `redundant` list is attached under the
display container, no node is recorded or attached twice, and every
attached node id is below the fresh-id counter. -/

def PoolInv (s : PoolState) : Prop :=
  s.dom.Nodup ∧ (trackedOf s.container).Nodup ∧
  (∀ n ∈ trackedOf s.container, n ∈ s.dom) ∧
  (∀ n ∈ s.dom, n < s.nextId)

theorem PoolInv_empty : PoolInv emptyPoolState := by
  refine ⟨List.nodup_nil, List.nodup_nil, ?_, ?_⟩ <;> simp [emptyPoolState, trackedOf]

theorem PoolInv_prepareState (s : PoolState) (h : PoolInv s) :
    PoolInv (prepareState s) := by
  obtain ⟨hd, ht, hsub, hlt⟩ := h
  refine ⟨hd, ?_, ?_, hlt⟩
  · rw [prepareState]
    simp only
    rw [trackedOf_prepareElements]
    exact ht.sublist (usedNodes_sublist_trackedOf s.container)
  · intro n hn
    rw [prepareState] at hn
    simp only at hn
    rw [trackedOf_prepareElements] at hn
    exact hsub n ((usedNodes_sublist_trackedOf s.container).mem hn)

theorem cleanupState_container (s : PoolState) :
    (cleanupState s).container
      = s.container.map (fun e => (e.1, (⟨e.2.used, []⟩ : TagPool))) := by
  simp [cleanupState, cleanupElements_container]

theorem cleanupState_dom (s : PoolState) :
    (cleanupState s).dom = s.dom.diff (redundantNodes s.container) := by
  simp [cleanupState, cleanupElements_dom]

theorem cleanupState_removals (s : PoolState) :
    (cleanupState s).removals = s.removals ++ redundantNodes s.container := by
  simp [cleanupState, cleanupElements_removals]

theorem cleanupState_nextId (s : PoolState) :
    (cleanupState s).nextId = s.nextId := rfl

/-- In a duplicate-free pool the `used` and `redundant` collections are
disjoint. -/
theorem used_disjoint_redundant (c : JSONContainer)
    (ht : (trackedOf c).Nodup) :
    List.Disjoint (usedNodes c) (redundantNodes c) :=
  List.disjoint_of_nodup_append
    (((trackedOf_perm_used_append_redundant c).nodup_iff).mp ht)

theorem PoolInv_cleanupState (s : PoolState) (h : PoolInv s) :
    PoolInv (cleanupState s) := by
  obtain ⟨hd, ht, hsub, hlt⟩ := h
  have hdisj := used_disjoint_redundant s.container ht
  refine ⟨?_, ?_, ?_, ?_⟩
  · rw [cleanupState_dom]
    exact hd.sublist (List.diff_sublist _ _)
  · rw [cleanupState_container, trackedOf_map_clean]
    exact ht.sublist (usedNodes_sublist_trackedOf s.container)
  · intro n hn
    rw [cleanupState_container, trackedOf_map_clean] at hn
    rw [cleanupState_dom, hd.mem_diff_iff]
    exact ⟨hsub n ((usedNodes_sublist_trackedOf s.container).mem hn),
      fun hr => hdisj hn hr⟩
  · intro n hn
    rw [cleanupState_dom] at hn
    rw [cleanupState_nextId]
    exact hlt n ((List.diff_sublist _ _).mem hn)

theorem PoolInv_getDOMElement (t : String) (ib : Option Nat) (s : PoolState)
    (h : PoolInv s) : PoolInv (getDOMElement t ib s).2 := by
  obtain ⟨hd, ht, hsub, hlt⟩ := h
  have hfresh : s.nextId ∉ s.dom := fun hm => lt_irrefl _ (hlt _ hm)
  have hfreshT : s.nextId ∉ trackedOf s.container := fun hm => hfresh (hsub _ hm)
  rcases hget : getTag s.container t with _ | ⟨u, red⟩
  · rw [getDOMElement_fresh_new _ _ _ hget]
    refine ⟨attachDOM_nodup _ _ _ hd hfresh, ?_, ?_, ?_⟩
    · simp only
      rw [trackedOf_setTag_new _ _ _ hget]
      exact (List.perm_append_comm.nodup_iff).mpr (List.nodup_cons.mpr ⟨hfreshT, ht⟩)
    · intro n hn
      simp only at hn ⊢
      rw [trackedOf_setTag_new _ _ _ hget, List.mem_append] at hn
      rw [mem_attachDOM]
      rcases hn with hn | hn
      · exact Or.inr (hsub n hn)
      · simp only [List.mem_singleton] at hn
        exact Or.inl hn
    · intro n hn
      simp only at hn ⊢
      rw [mem_attachDOM] at hn
      rcases hn with rfl | hn
      · omega
      · exact Nat.lt_succ_of_lt (hlt n hn)
  · rcases red with _ | ⟨e, rest⟩
    · rw [getDOMElement_fresh_existing _ _ _ _ hget]
      have hperm := trackedOf_setTag_push s.container t u s.nextId hget
      refine ⟨attachDOM_nodup _ _ _ hd hfresh, ?_, ?_, ?_⟩
      · exact (hperm.nodup_iff).mpr (List.nodup_cons.mpr ⟨hfreshT, ht⟩)
      · intro n hn
        simp only at hn ⊢
        rw [hperm.mem_iff, List.mem_cons] at hn
        rw [mem_attachDOM]
        rcases hn with hn | hn
        · exact Or.inl hn
        · exact Or.inr (hsub n hn)
      · intro n hn
        simp only at hn ⊢
        rw [mem_attachDOM] at hn
        rcases hn with rfl | hn
        · omega
        · exact Nat.lt_succ_of_lt (hlt n hn)
    · rw [getDOMElement_reuse _ _ _ _ _ _ hget]
      have hperm := trackedOf_setTag_reuse s.container t u e rest hget
      exact ⟨hd, (hperm.nodup_iff).mpr ht,
        fun n hn => hsub n (hperm.mem_iff.mp hn), hlt⟩

theorem PoolInv_applyGet (s : PoolState) (g : GetOp) (h : PoolInv s) :
    PoolInv (applyGet s g) := by
  cases g with
  | svg t =>
      rw [applyGet, getSVGElement_eq_getDOMElement]
      exact PoolInv_getDOMElement t none s h
  | dom t ib => exact PoolInv_getDOMElement t ib s h

theorem PoolInv_applyOp (s : PoolState) (op : PoolOp) (h : PoolInv s) :
    PoolInv (applyOp s op) := by
  cases op with
  | prepare => exact PoolInv_prepareState s h
  | cleanup => exact PoolInv_cleanupState s h
  | reset =>
      exact PoolInv_prepareState _ (PoolInv_cleanupState _ (PoolInv_prepareState s h))
  | getSVG t => exact PoolInv_applyGet s (.svg t) h
  | getDOM t ib => exact PoolInv_applyGet s (.dom t ib) h

theorem PoolInv_applyOps (ops : List PoolOp) (s : PoolState) (h : PoolInv s) :
    PoolInv (applyOps ops s) := by
  induction ops generalizing s with
  | nil => exact h
  | cons op rest ih => exact ih (applyOp s op) (PoolInv_applyOp s op h)

/-! ### The draw-pass cycle -/

/-- A pool at the boundary between draw passes (as a fresh pool is, and as
`cleanupElements` leaves it): every `redundant` list is empty, and the
attached nodes are exactly the pooled nodes, each once. -/
def CycleStart (s : PoolState) : Prop :=
  (∀ e ∈ s.container, e.2.redundant = []) ∧
  List.Perm s.dom (trackedOf s.container) ∧
  s.dom.Nodup ∧
  (∀ n ∈ s.dom, n < s.nextId)

instance (s : PoolState) : Decidable (CycleStart s) := by
  unfold CycleStart
  infer_instance

/-- Invariant holding from `prepareElements` through any number of
acquisitions within one draw pass: no removal has happened yet, attached
nodes and pooled nodes coincide, and every node pooled at the start of the
pass is still pooled. -/
def MidPass (base old : List Nat) (s : PoolState) : Prop :=
  s.removals = base ∧
  List.Perm s.dom (trackedOf s.container) ∧
  s.dom.Nodup ∧
  (∀ n ∈ s.dom, n < s.nextId) ∧
  (∀ n ∈ old, n ∈ trackedOf s.container)

theorem MidPass_prepareState (s : PoolState) (h : CycleStart s) :
    MidPass s.removals (trackedOf s.container) (prepareState s) := by
  obtain ⟨hred, hperm, hd, hlt⟩ := h
  have htr : trackedOf (prepareElements s.container) = trackedOf s.container := by
    rw [trackedOf_prepareElements,
      ← trackedOf_eq_usedNodes_of_redundant_empty s.container hred]
  refine ⟨rfl, ?_, hd, hlt, ?_⟩
  · show List.Perm s.dom (trackedOf (prepareElements s.container))
    rw [htr]
    exact hperm
  · intro n hn
    show n ∈ trackedOf (prepareElements s.container)
    rw [htr]
    exact hn

theorem MidPass_getDOMElement (base old : List Nat) (t : String)
    (ib : Option Nat) (s : PoolState) (h : MidPass base old s) :
    MidPass base old (getDOMElement t ib s).2 := by
  obtain ⟨hrem, hperm, hd, hlt, hold⟩ := h
  have hfresh : s.nextId ∉ s.dom := fun hm => lt_irrefl _ (hlt _ hm)
  rcases hget : getTag s.container t with _ | ⟨u, red⟩
  · rw [getDOMElement_fresh_new _ _ _ hget]
    refine ⟨hrem, ?_, attachDOM_nodup _ _ _ hd hfresh, ?_, ?_⟩
    · simp only
      rw [trackedOf_setTag_new _ _ _ hget]
      exact (attachDOM_perm _ _ _).trans ((hperm.cons s.nextId).trans
        (List.perm_append_comm :
          List.Perm ([s.nextId] ++ trackedOf s.container)
            (trackedOf s.container ++ [s.nextId])))
    · intro n hn
      simp only at hn ⊢
      rw [mem_attachDOM] at hn
      rcases hn with rfl | hn
      · omega
      · exact Nat.lt_succ_of_lt (hlt n hn)
    · intro n hn
      simp only
      rw [trackedOf_setTag_new _ _ _ hget, List.mem_append]
      exact Or.inl (hold n hn)
  · rcases red with _ | ⟨e, rest⟩
    · rw [getDOMElement_fresh_existing _ _ _ _ hget]
      have hperm2 := trackedOf_setTag_push s.container t u s.nextId hget
      refine ⟨hrem, ?_, attachDOM_nodup _ _ _ hd hfresh, ?_, ?_⟩
      · exact (attachDOM_perm _ _ _).trans
          ((hperm.cons s.nextId).trans hperm2.symm)
      · intro n hn
        simp only at hn ⊢
        rw [mem_attachDOM] at hn
        rcases hn with rfl | hn
        · omega
        · exact Nat.lt_succ_of_lt (hlt n hn)
      · intro n hn
        simp only
        exact hperm2.symm.mem_iff.mp (List.mem_cons_of_mem _ (hold n hn))
    · rw [getDOMElement_reuse _ _ _ _ _ _ hget]
      have hperm2 := trackedOf_setTag_reuse s.container t u e rest hget
      exact ⟨hrem, hperm.trans hperm2.symm, hd, hlt,
        fun n hn => hperm2.symm.mem_iff.mp (hold n hn)⟩

theorem MidPass_applyGet (base old : List Nat) (s : PoolState) (g : GetOp)
    (h : MidPass base old s) : MidPass base old (applyGet s g) := by
  cases g with
  | svg t =>
      rw [applyGet, getSVGElement_eq_getDOMElement]
      exact MidPass_getDOMElement base old t none s h
  | dom t ib => exact MidPass_getDOMElement base old t ib s h

theorem MidPass_foldl (base old : List Nat) (gets : List GetOp)
    (s : PoolState) (h : MidPass base old s) :
    MidPass base old (gets.foldl applyGet s) := by
  induction gets generalizing s with
  | nil => exact h
  | cons g rest ih => exact ih (applyGet s g) (MidPass_applyGet base old s g h)

/-- Cleanup at the end of a pass: the attached nodes become exactly the
`used` nodes of the pass, and every node pooled at the start of the pass
that was not reacquired is logged as removed exactly once. -/
theorem cycle_cleanup (base old : List Nat) (s2 : PoolState)
    (h : MidPass base old s2) :
    (∀ n, n ∈ (cleanupState s2).dom ↔ n ∈ usedNodes (cleanupState s2).container) ∧
    (∀ n ∈ old, n ∉ usedNodes (cleanupState s2).container →
      ((cleanupState s2).removals).count n = base.count n + 1) := by
  obtain ⟨hrem, hperm, hd, _, hold⟩ := h
  have ht : (trackedOf s2.container).Nodup := (hperm.nodup_iff).mp hd
  have hur : (usedNodes s2.container ++ redundantNodes s2.container).Nodup :=
    ((trackedOf_perm_used_append_redundant s2.container).nodup_iff).mp ht
  have hdisj := List.disjoint_of_nodup_append hur
  have husedeq : usedNodes (cleanupState s2).container = usedNodes s2.container := by
    rw [cleanupState_container, usedNodes_map_clean]
  constructor
  · intro n
    rw [husedeq, cleanupState_dom, hd.mem_diff_iff, hperm.mem_iff,
      mem_trackedOf_iff]
    constructor
    · rintro ⟨hu | hr, hn⟩
      · exact hu
      · exact absurd hr hn
    · intro hu
      exact ⟨Or.inl hu, fun hr => hdisj hu hr⟩
  · intro n hn hnu
    rw [husedeq] at hnu
    have hmem : n ∈ redundantNodes s2.container := by
      have := (mem_trackedOf_iff s2.container n).mp (hold n hn)
      tauto
    rw [cleanupState_removals, hrem, List.count_append,
      List.count_eq_one_of_mem (hur.of_append_right) hmem]

/-- Run one full draw pass: `prepareElements`, any sequence of
`getSVGElement`/`getDOMElement` calls, then `cleanupElements`. -/
def runCycle (s : PoolState) (gets : List GetOp) : PoolState :=
  cleanupState (gets.foldl applyGet (prepareState s))

theorem getTag_map_clean (c : JSONContainer) (t : String) :
    getTag (c.map (fun e => (e.1, (⟨e.2.used, []⟩ : TagPool)))) t
      = (getTag c t).map (fun p => (⟨p.used, []⟩ : TagPool)) := by
  induction c with
  | nil => simp [getTag]
  | cons e rest ih =>
      by_cases he : e.1 = t
      · simp [getTag, he]
      · simpa [getTag, he] using ih

/-! ### Claim theorems for the pooling utility -/

/-- C1: for every pool cycle — `prepareElements` on a pool container at a
between-passes state, then any sequence of `getSVGElement`/`getDOMElement`
calls against that container, then `cleanupElements` — the set of pooled
DOM nodes still attached under the container afterwards equals exactly the
set recorded in the `used` lists of that cycle, and every node that was
pooled before the cycle but not reacquired during it is removed from its
parent exactly once. -/
theorem claim_C1_pool_cycle (s : PoolState) (gets : List GetOp)
    (h : CycleStart s) :
    (∀ n, n ∈ (runCycle s gets).dom ↔ n ∈ usedNodes (runCycle s gets).container) ∧
    (∀ n ∈ trackedOf s.container, n ∉ usedNodes (runCycle s gets).container →
      ((runCycle s gets).removals).count n = (s.removals).count n + 1) :=
  cycle_cleanup s.removals (trackedOf s.container) _
    (MidPass_foldl _ _ gets _ (MidPass_prepareState s h))

/-- Witness for C1: a two-node pool, a pass reacquiring node 0 and
allocating fresh node 2; node 1 stays attached out, is detached once. -/
theorem claim_C1_pool_cycle_witness :
    (2 ∈ (runCycle ⟨[("rect", ⟨[0, 1], []⟩)], [0, 1], 2, []⟩
        [GetOp.svg "rect", GetOp.svg "circle"]).dom) ∧
    ((runCycle ⟨[("rect", ⟨[0, 1], []⟩)], [0, 1], 2, []⟩
        [GetOp.svg "rect", GetOp.svg "circle"]).removals).count 1
      = ((⟨[("rect", ⟨[0, 1], []⟩)], [0, 1], 2, []⟩ : PoolState).removals).count 1
          + 1 := by
  have h := claim_C1_pool_cycle ⟨[("rect", ⟨[0, 1], []⟩)], [0, 1], 2, []⟩
    [GetOp.svg "rect", GetOp.svg "circle"] (by decide)
  exact ⟨(h.1 2).mpr (by decide), h.2 1 (by decide) (by decide)⟩

/-- C2: `prepareElements` makes every `used` list the `redundant` list and
empties `used`; a subsequent `cleanupElements` empties every `redundant`
list and detaches from the DOM every node that remained unused, so no
pooled node that went unused in the pass stays attached after cleanup. -/
theorem claim_C2_prepare_then_cleanup (s : PoolState) (hd : s.dom.Nodup) :
    (∀ t, getTag (prepareState s).container t
      = (getTag s.container t).map (fun p => (⟨[], p.used⟩ : TagPool))) ∧
    (∀ t p, getTag (cleanupState (prepareState s)).container t = some p →
      p.redundant = []) ∧
    (∀ n ∈ usedNodes s.container, n ∉ (cleanupState (prepareState s)).dom) := by
  refine ⟨?_, ?_, ?_⟩
  · intro t
    exact getTag_prepareElements s.container t
  · intro t p hp
    rw [cleanupState_container, getTag_map_clean] at hp
    obtain ⟨q, -, hfq⟩ := Option.map_eq_some'.mp hp
    rw [← hfq]
  · intro n hn
    rw [cleanupState_dom]
    show n ∉ s.dom.diff (redundantNodes (prepareElements s.container))
    rw [redundantNodes_prepareElements]
    intro hmem
    exact ((hd.mem_diff_iff).mp hmem).2 hn

/-- Witness for C2 on a one-node pool: after prepare the node is redundant,
and after the subsequent cleanup it is detached. -/
theorem claim_C2_prepare_then_cleanup_witness :
    getTag (prepareState ⟨[("rect", ⟨[0], []⟩)], [0], 1, []⟩).container "rect"
      = some ⟨[], [0]⟩ ∧
    0 ∉ (cleanupState (prepareState ⟨[("rect", ⟨[0], []⟩)], [0], 1, []⟩)).dom := by
  have h := claim_C2_prepare_then_cleanup ⟨[("rect", ⟨[0], []⟩)], [0], 1, []⟩
    (by decide)
  refine ⟨?_, h.2.2 0 (by decide)⟩
  rw [h.1 "rect"]
  decide

/-- C3: `getSVGElement` (and likewise `getDOMElement`) returns the first
element of the tag's `redundant` list when it is non-empty, removing it
from that list and touching neither the DOM nor the fresh-id counter; it
creates and attaches a brand-new element only when the `redundant` list is
empty or the tag has never been seen; in all cases the returned element is
appended to the tag's `used` list. -/
theorem claim_C3_acquire (t : String) (s : PoolState) (ib : Option Nat) :
    (∀ u e rest, getTag s.container t = some ⟨u, e :: rest⟩ →
      (getSVGElement t s).1 = e ∧
      getTag (getSVGElement t s).2.container t = some ⟨u ++ [e], rest⟩ ∧
      (getSVGElement t s).2.dom = s.dom ∧
      (getSVGElement t s).2.nextId = s.nextId ∧
      (getDOMElement t ib s).1 = e ∧
      getTag (getDOMElement t ib s).2.container t = some ⟨u ++ [e], rest⟩ ∧
      (getDOMElement t ib s).2.dom = s.dom) ∧
    (∀ u, getTag s.container t = some ⟨u, []⟩ →
      (getSVGElement t s).1 = s.nextId ∧
      getTag (getSVGElement t s).2.container t = some ⟨u ++ [s.nextId], []⟩ ∧
      (getSVGElement t s).2.dom = s.dom ++ [s.nextId] ∧
      (getDOMElement t ib s).2.dom = attachDOM s.dom s.nextId ib) ∧
    (getTag s.container t = none →
      (getSVGElement t s).1 = s.nextId ∧
      getTag (getSVGElement t s).2.container t = some ⟨[s.nextId], []⟩ ∧
      (getSVGElement t s).2.dom = s.dom ++ [s.nextId] ∧
      (getDOMElement t ib s).2.dom = attachDOM s.dom s.nextId ib) := by
  refine ⟨?_, ?_, ?_⟩
  · intro u e rest h
    rw [getSVGElement_reuse _ _ _ _ _ h, getDOMElement_reuse _ _ _ _ _ _ h]
    exact ⟨rfl, getTag_setTag_self _ _ _, rfl, rfl, rfl,
      getTag_setTag_self _ _ _, rfl⟩
  · intro u h
    rw [getSVGElement_fresh_existing _ _ _ h,
      getDOMElement_fresh_existing _ _ _ _ h]
    exact ⟨rfl, getTag_setTag_self _ _ _, rfl, rfl⟩
  · intro h
    rw [getSVGElement_fresh_new _ _ h, getDOMElement_fresh_new _ _ _ h]
    exact ⟨rfl, getTag_setTag_self _ _ _, rfl, rfl⟩

/-- Witness for C3: one concrete pool per branch — a redundant node is
reused, an exhausted pool allocates fresh and appends, a new tag allocates
fresh. -/
theorem claim_C3_acquire_witness :
    (getSVGElement "rect" ⟨[("rect", ⟨[], [5]⟩)], [5], 6, []⟩).1 = 5 ∧
    (getSVGElement "rect" ⟨[("rect", ⟨[0], []⟩)], [0], 1, []⟩).2.dom
      = [0] ++ [1] ∧
    (getSVGElement "rect" emptyPoolState).1 = 0 := by
  refine ⟨((claim_C3_acquire "rect" _ none).1 [] 5 [] (by decide)).1, ?_, ?_⟩
  · exact ((claim_C3_acquire "rect" ⟨[("rect", ⟨[0], []⟩)], [0], 1, []⟩
      none).2.1 [0] (by decide)).2.2.1
  · exact ((claim_C3_acquire "rect" emptyPoolState none).2.2 (by decide)).1

/-- The literal reading of C4: after every sequence of pool operations
from an empty pool, every pooled node is attached, and no node is ever
left attached but untracked. -/
def C4Claim : Prop :=
  ∀ ops : List PoolOp,
    (∀ n ∈ trackedOf (applyOps ops emptyPoolState).container,
      n ∈ (applyOps ops emptyPoolState).dom) ∧
    (∀ n ∈ (applyOps ops emptyPoolState).dom,
      n ∈ trackedOf (applyOps ops emptyPoolState).container)

/-- Counterexample to C4 as stated: one `getSVGElement` followed by two
`prepareElements` calls leaves node 0 attached but absent from every
`used` and `redundant` list, because the second `prepareElements`
overwrites the pending `redundant` lists. -/
theorem claim_C4_counterexample : ¬ C4Claim := by
  intro h
  exact absurd ((h [PoolOp.getSVG "rect", PoolOp.prepare, PoolOp.prepare]).2
    0 (by decide)) (by decide)

/-- C4 amended: after every sequence of pool operations from an empty
pool, every node in any `used` or `redundant` list is attached to the
display container; every currently redundant node is detached by a
`cleanupElements`, and an acquisition for a tag with a non-empty
`redundant` list reuses its first node.  (The untracked-node clause of the
original claim is dropped: a node becomes attached-but-untracked when
`prepareElements` runs twice with no intervening cleanup.) -/
theorem claim_C4_amended (ops : List PoolOp) :
    (∀ n ∈ trackedOf (applyOps ops emptyPoolState).container,
      n ∈ (applyOps ops emptyPoolState).dom) ∧
    (∀ n ∈ redundantNodes (applyOps ops emptyPoolState).container,
      n ∉ (cleanupState (applyOps ops emptyPoolState)).dom) ∧
    (∀ t u e rest,
      getTag (applyOps ops emptyPoolState).container t = some ⟨u, e :: rest⟩ →
      (getSVGElement t (applyOps ops emptyPoolState)).1 = e) := by
  obtain ⟨hd, ht, hsub, hlt⟩ := PoolInv_applyOps ops emptyPoolState PoolInv_empty
  refine ⟨hsub, ?_, ?_⟩
  · intro n hn
    rw [cleanupState_dom, hd.mem_diff_iff]
    rintro ⟨-, hnot⟩
    exact hnot hn
  · intro t u e rest h
    rw [getSVGElement_reuse _ _ _ _ _ h]

/-- Witness for C4 amended: a redundant node is attached and a cleanup
detaches it. -/
theorem claim_C4_amended_witness :
    0 ∈ (applyOps [PoolOp.getSVG "rect", PoolOp.prepare] emptyPoolState).dom ∧
    0 ∉ (cleanupState
      (applyOps [PoolOp.getSVG "rect", PoolOp.prepare] emptyPoolState)).dom := by
  have h := claim_C4_amended [PoolOp.getSVG "rect", PoolOp.prepare]
  exact ⟨h.1 0 (by decide), h.2.1 0 (by decide)⟩

/-! ### `drawBar` (DOMutil.js lines 203-219) -/

/-- The attributes `drawBar` sets on the acquired rect. -/
structure BarRect where
  elem : Nat
  x : Rat
  y : Rat
  width : Rat
  height : Rat
  className : String
  style : Option String
deriving DecidableEq, Repr

/-- `drawBar`: nothing happens when `height` is 0 (`height != 0` guard);
with a negative height, the source first flips `height` and then lowers
`y` by the flipped value; otherwise a pooled `rect` is acquired via
`getSVGElement` and its attributes are set (`x - 0.5 * width` centering).
The returned pair is the pool state afterwards and the attribute record of
the drawn rect, if any. -/
def drawBar (x y width height : Rat) (className : String) (s : PoolState)
    (style : Option String) : PoolState × Option BarRect :=
  if height = 0 then (s, none)
  else
    ((getSVGElement "rect" s).2,
      some ⟨(getSVGElement "rect" s).1, x - 0.5 * width,
        (if height < 0 then y - (-height) else y), width,
        (if height < 0 then -height else height), className, style⟩)

/-- C8: `drawBar` with height 0 acquires nothing and leaves the pool, the
SVG container and the DOM unchanged; with a negative height it draws the
same bar as a call with height `|height|` and `y` decreased by
`|height|`. -/
theorem claim_C8_drawBar (x y width height : Rat) (className : String)
    (s : PoolState) (style : Option String) :
    drawBar x y width 0 className s style = (s, none) ∧
    (height < 0 →
      drawBar x y width height className s style
        = drawBar x (y - (-height)) width (-height) className s style) := by
  constructor
  · simp [drawBar]
  · intro hneg
    have h1 : height ≠ 0 := ne_of_lt hneg
    have h2 : (-height : Rat) ≠ 0 := by
      intro hc
      apply h1
      linarith
    have h3 : ¬((-height : Rat) < 0) := by linarith
    simp only [drawBar, if_neg h1, if_neg h2, if_pos hneg, if_neg h3]

/-- Witness for C8 at heights 0 and -2. -/
theorem claim_C8_drawBar_witness :
    drawBar 1 2 3 0 "vis-bar" emptyPoolState none = (emptyPoolState, none) ∧
    drawBar 1 2 3 (-2) "vis-bar" emptyPoolState none
      = drawBar 1 (2 - (-(-2) : Rat)) 3 (-(-2)) "vis-bar" emptyPoolState none := by
  have h := claim_C8_drawBar 1 2 3 (-2) "vis-bar" emptyPoolState none
  exact ⟨h.1, h.2 (by norm_num)⟩

/-! ### `getNavigatorLanguage` (DOMutil.js lines 225-237) -/

/-- A value returned by `getNavigatorLanguage`: the whole
`navigator.languages` array, or a single language string. -/
inductive LangResult where
  | list (ls : List String)
  | single (s : String)
deriving DecidableEq, Repr

/-- JavaScript `a || b` over a string property that may be undefined: the
fallback is taken when the property is absent or the empty string
(falsy). -/
def jsOrStr (a : Option String) (b : String) : String :=
  match a with
  | none => b
  | some s => if s = "" then b else s

/-- The `navigator` fields read by `getNavigatorLanguage`. -/
structure Navigator where
  languages : Option (List String)
  userLanguage : Option String
  language : Option String
  browserLanguage : Option String
deriving DecidableEq, Repr

/-- The environments `getNavigatorLanguage` can run in: `navigator`
missing (falsy), `navigator` present but every property access throwing,
or a well-behaved `navigator`. -/
inductive NavEnv where
  | absent
  | throwing
  | present (nav : Navigator)
deriving DecidableEq, Repr

/-- The `try` block of `getNavigatorLanguage`: return `'en'` when
`!navigator`; return the `languages` array when it exists and has
non-zero length; otherwise fall through
`userLanguage || language || browserLanguage || 'en'`.  A thrown
exception is an `Except.error`. -/
def getNavigatorLanguageBody : NavEnv → Except Unit LangResult
  | .absent => .ok (.single "en")
  | .throwing => .error ()
  | .present nav =>
      match nav.languages with
      | some ls =>
          if ls.length ≠ 0 then .ok (.list ls)
          else .ok (.single (jsOrStr nav.userLanguage
            (jsOrStr nav.language (jsOrStr nav.browserLanguage "en"))))
      | none => .ok (.single (jsOrStr nav.userLanguage
          (jsOrStr nav.language (jsOrStr nav.browserLanguage "en"))))

/-- `getNavigatorLanguage`: the `catch` clause maps any exception to the
default `'en'`. -/
def getNavigatorLanguage (env : NavEnv) : LangResult :=
  match getNavigatorLanguageBody env with
  | .ok r => r
  | .error _ => .single "en"

/-- C5: `getNavigatorLanguage` never propagates an exception — whenever
the body throws the catch clause yields the default — and when the
navigator is missing, or every property access throws, the result is
`'en'`. -/
theorem claim_C5_getNavigatorLanguage (env : NavEnv) :
    (∀ e : Unit, getNavigatorLanguageBody env = .error e →
      getNavigatorLanguage env = .single "en") ∧
    (env = .absent ∨ env = .throwing →
      getNavigatorLanguage env = .single "en") := by
  constructor
  · intro e he
    simp [getNavigatorLanguage, he]
  · rintro (rfl | rfl) <;> rfl

/-- Witness for C5 in the throwing and absent environments. -/
theorem claim_C5_getNavigatorLanguage_witness :
    getNavigatorLanguage NavEnv.throwing = LangResult.single "en" ∧
    getNavigatorLanguage NavEnv.absent = LangResult.single "en" :=
  ⟨(claim_C5_getNavigatorLanguage NavEnv.throwing).2 (Or.inr rfl),
    (claim_C5_getNavigatorLanguage NavEnv.absent).2 (Or.inl rfl)⟩

/-! ### `Graph2d.prototype.setOptions` (Graph2d.js lines 179-187) -/

/-- Trace of one `setOptions` call: the console messages written and
whether the `Core.prototype.setOptions` path ran. -/
structure SetOptionsTrace where
  consoleMessages : List String
  coreSetOptionsCalled : Bool
deriving DecidableEq, Repr

/-- The message `Graph2d.setOptions` logs when validation finds errors. -/
def optionsWarning : String :=
  "Errors have been found in the supplied options object."

/-- `Graph2d.prototype.setOptions`.  Modelled from the spec:
`Validator.validate` (src/lib/shared/Validator.js is not part of the
excerpt) reports through a boolean result whether errors were found and
does not throw; it is therefore passed in as an arbitrary boolean-valued
function.  The warning is logged exactly when `errorFound === true`, and
`Core.prototype.setOptions` is called unconditionally afterwards. -/
def graph2dSetOptions {α : Type} (validate : α → Bool) (options : α) :
    SetOptionsTrace :=
  ⟨if validate options = true then [optionsWarning] else [], true⟩

/-- C6: `setOptions` never throws as a result of validation — for every
validator outcome it produces a trace — logging the warning exactly when
errors were found, and in every case still applying the options through
the `Core` path. -/
theorem claim_C6_setOptions {α : Type} (validate : α → Bool) (options : α) :
    (validate options = true →
      (graph2dSetOptions validate options).consoleMessages = [optionsWarning]) ∧
    (validate options = false →
      (graph2dSetOptions validate options).consoleMessages = []) ∧
    (graph2dSetOptions validate options).coreSetOptionsCalled = true := by
  refine ⟨?_, ?_, rfl⟩
  · intro h
    simp [graph2dSetOptions, h]
  · intro h
    simp [graph2dSetOptions, h]

/-- Witness for C6 with an always-failing and an always-passing
validator. -/
theorem claim_C6_setOptions_witness :
    (graph2dSetOptions (fun _ : Nat => true) 0).consoleMessages
      = [optionsWarning] ∧
    (graph2dSetOptions (fun _ : Nat => false) 0).consoleMessages = [] ∧
    (graph2dSetOptions (fun _ : Nat => true) 0).coreSetOptionsCalled = true :=
  ⟨(claim_C6_setOptions (fun _ : Nat => true) 0).1 rfl,
    (claim_C6_setOptions (fun _ : Nat => false) 0).2.1 rfl,
    (claim_C6_setOptions (fun _ : Nat => true) 0).2.2⟩

/-! ### The `changed` handler of the `Graph2d` constructor
(Graph2d.js lines 126-155) -/

/-- The instance fields the `changed` handler reads or writes, plus a
count of the deferred `onInitialDrawComplete` callbacks scheduled through
`setTimeout(..., 0)`.  The option fields record truthiness of
`options.start` / `options.end` / `options.rollingMode` /
`options.onInitialDrawComplete`. -/
structure G2State where
  itemsPresent : Bool
  initialFitDone : Bool
  initialDrawDone : Bool
  initialRangeChangeDone : Bool
  optStartTruthy : Bool
  optEndTruthy : Bool
  rollingMode : Bool
  hasOnInitialDrawComplete : Bool
  scheduled : Nat
deriving DecidableEq, Repr

/-- First block of the handler: the single-time autoscale/fit.  Its
`setWindow`/`fit` calls touch none of the fields modelled here; any
`changed` events they emit appear as further events of the sequence. -/
def changedFitStep (s : G2State) : G2State :=
  if s.initialFitDone = false ∧ s.rollingMode = false
  then { s with initialFitDone := true } else s

/-- Second block of the handler: when the initial draw is not yet done and
the range is settled, mark it done and, when the option is set, schedule
the deferred `onInitialDrawComplete` callback. -/
def changedDrawStep (s : G2State) : G2State :=
  if s.initialDrawDone = false ∧
      (s.initialRangeChangeDone = true ∨
        (s.optStartTruthy = false ∧ s.optEndTruthy = false) ∨
        s.rollingMode = true)
  then
    { s with
        initialDrawDone := true,
        scheduled := s.scheduled +
          (if s.hasOnInitialDrawComplete then 1 else 0) }
  else s

/-- The `changed` handler: return immediately when `itemsData == null`,
otherwise run the fit block then the draw-complete block. -/
def changedHandler (s : G2State) : G2State :=
  if s.itemsPresent = false then s
  else changedDrawStep (changedFitStep s)

/-- One step in the life of the instance: a `changed` event, or an update
by other code of the fields the handler does not own (`initialFitDone`,
`initialDrawDone` and the scheduling count are written only by the
handler itself). -/
inductive G2Event where
  | changed
  | env (itemsPresent initialRangeChangeDone optStartTruthy optEndTruthy
      rollingMode hasOnInitialDrawComplete : Bool)
deriving DecidableEq, Repr

def applyG2Event (s : G2State) : G2Event → G2State
  | .changed => changedHandler s
  | .env a b c d e f =>
      { s with
          itemsPresent := a, initialRangeChangeDone := b,
          optStartTruthy := c, optEndTruthy := d, rollingMode := e,
          hasOnInitialDrawComplete := f }

def applyG2Events (events : List G2Event) (s : G2State) : G2State :=
  events.foldl applyG2Event s

/-- The at-most-once invariant: while `initialDrawDone` is unset nothing
has been scheduled, and never more than one callback is scheduled. -/
def DrawOnceInv (s : G2State) : Prop :=
  (s.initialDrawDone = false → s.scheduled = 0) ∧ s.scheduled ≤ 1

theorem DrawOnceInv_changedFitStep (s : G2State) (h : DrawOnceInv s) :
    DrawOnceInv (changedFitStep s) := by
  unfold changedFitStep
  split
  · exact h
  · exact h

theorem DrawOnceInv_changedDrawStep (s : G2State) (h : DrawOnceInv s) :
    DrawOnceInv (changedDrawStep s) := by
  obtain ⟨hz, hle⟩ := h
  unfold changedDrawStep
  split
  case isTrue hc =>
    have h0 := hz hc.1
    constructor
    · intro hfalse
      exact absurd hfalse (by simp)
    · simp only [h0]
      split <;> omega
  case isFalse => exact ⟨hz, hle⟩

theorem DrawOnceInv_applyG2Event (s : G2State) (e : G2Event)
    (h : DrawOnceInv s) : DrawOnceInv (applyG2Event s e) := by
  cases e with
  | changed =>
      show DrawOnceInv (changedHandler s)
      unfold changedHandler
      split
      · exact h
      · exact DrawOnceInv_changedDrawStep _ (DrawOnceInv_changedFitStep _ h)
  | env a b c d e f => exact h

theorem DrawOnceInv_applyG2Events (events : List G2Event) (s : G2State)
    (h : DrawOnceInv s) : DrawOnceInv (applyG2Events events s) := by
  induction events generalizing s with
  | nil => exact h
  | cons e rest ih => exact ih _ (DrawOnceInv_applyG2Event s e h)

/-- C7: across every sequence of `changed` events (interleaved with
arbitrary updates of the fields the handler does not own), starting from a
state where the initial draw is not done and nothing is scheduled, the
deferred `onInitialDrawComplete` callback is scheduled at most once — the
`initialDrawDone` flag prevents a second firing. -/
theorem claim_C7_initial_draw_once (events : List G2Event) (s : G2State)
    (_h0 : s.initialDrawDone = false) (h1 : s.scheduled = 0) :
    (applyG2Events events s).scheduled ≤ 1 :=
  (DrawOnceInv_applyG2Events events s ⟨fun _ => h1, by omega⟩).2

/-- Witness for C7: three `changed` events on a fresh instance with the
callback configured and rolling mode on still schedule at most once. -/
theorem claim_C7_initial_draw_once_witness :
    (applyG2Events [G2Event.changed, G2Event.changed, G2Event.changed]
      ⟨true, false, false, false, false, false, true, true, 0⟩).scheduled ≤ 1 :=
  claim_C7_initial_draw_once _ _ rfl rfl

/-! ### The `Graph2d` constructor argument dispatch
(Graph2d.js lines 27-33) -/

/-- Shape of a JavaScript value passed as the `groups` or `options`
constructor argument, as far as the dispatch tests distinguish them. -/
inductive JSArg where
  | undefined
  | null
  | array
  | dataViewLike
  | plainObject
  | primitive
deriving DecidableEq, Repr

/-- `Array.isArray(groups)`. -/
def isArrayArg : JSArg → Bool
  | .array => true
  | _ => false

/-- Modelled from the spec: `isDataViewLike` (src/lib/util.js is not part
of the excerpt) recognises DataSet/DataView-like data objects. -/
def isDataViewLikeArg : JSArg → Bool
  | .dataViewLike => true
  | _ => false

/-- JavaScript `groups instanceof Object`: true for arrays, data views and
plain objects; false for `undefined`, `null` and primitives. -/
def instanceofObject : JSArg → Bool
  | .array => true
  | .dataViewLike => true
  | .plainObject => true
  | _ => false

/-- The argument dispatch at the top of the `Graph2d` constructor: when
the third argument is an object that is neither an array nor
DataView-like, it is the options object and the fourth argument (if any)
the groups.  Returns the (groups, options) pair actually used. -/
def graph2dResolveArgs (groups options : JSArg) : JSArg × JSArg :=
  if ¬(isArrayArg groups = true ∨ isDataViewLikeArg groups = true) ∧
      instanceofObject groups = true
  then (options, groups)
  else (groups, options)

/-- C9: whenever the third constructor argument is an object that is
neither an array nor DataView-like, the third and fourth arguments are
swapped: the third is used as the options and the fourth as the groups. -/
theorem claim_C9_arg_swap (groups options : JSArg)
    (h1 : isArrayArg groups = false) (h2 : isDataViewLikeArg groups = false)
    (h3 : instanceofObject groups = true) :
    graph2dResolveArgs groups options = (options, groups) := by
  rw [graph2dResolveArgs, if_pos]
  exact ⟨by simp [h1, h2], h3⟩

/-- Witness for C9 at a plain object third argument. -/
theorem claim_C9_arg_swap_witness :
    graph2dResolveArgs JSArg.plainObject JSArg.undefined
      = (JSArg.undefined, JSArg.plainObject) :=
  claim_C9_arg_swap JSArg.plainObject JSArg.undefined rfl rfl rfl

/-! ### `Graph2d.prototype.getLegend` (Graph2d.js lines 258-267) -/

/-- An apostrophe (the not-found message quotes the group id). -/
def apos : String := String.mk [Char.ofNat 39]

/-- Result of `getLegend`: either the delegation to the found group's own
`getLegend` (the group object lives in LineGraph, outside the excerpt, so
the delegation is recorded as the group id with the width and height
passed on), or the not-found string. -/
inductive LegendResult where
  | delegated (groupId : String) (width height : Rat)
  | notFound (msg : String)
deriving DecidableEq, Repr

/-- `Graph2d.prototype.getLegend`: default `width` and `height` to 15 when
`undefined`, then delegate when `linegraph.groups[groupId]` exists,
otherwise return the not-found message. -/
def graph2dGetLegend (groups : List String) (groupId : String)
    (width height : Option Rat) : LegendResult :=
  let w : Rat := match width with | none => 15 | some v => v
  let h : Rat := match height with | none => 15 | some v => v
  if groupId ∈ groups then .delegated groupId w h
  else .notFound ("cannot find group:" ++ apos ++ groupId ++ apos)

/-- C10: for a group id not present in the line graph's groups,
`getLegend` does not throw but returns the quoted not-found string; for a
present group each omitted dimension defaults to 15 before delegating. -/
theorem claim_C10_getLegend (groups : List String) (groupId : String)
    (width height : Option Rat) :
    (groupId ∉ groups →
      graph2dGetLegend groups groupId width height
        = .notFound ("cannot find group:" ++ apos ++ groupId ++ apos)) ∧
    (groupId ∈ groups →
      graph2dGetLegend groups groupId none none = .delegated groupId 15 15 ∧
      (∀ v, graph2dGetLegend groups groupId none (some v)
          = .delegated groupId 15 v) ∧
      (∀ v, graph2dGetLegend groups groupId (some v) none
          = .delegated groupId v 15)) := by
  constructor
  · intro h
    simp [graph2dGetLegend, h]
  · intro h
    refine ⟨?_, fun v => ?_, fun v => ?_⟩ <;> simp [graph2dGetLegend, h]

/-- Witness for C10: a missing and a present group id. -/
theorem claim_C10_getLegend_witness :
    graph2dGetLegend ["a"] "b" none none
      = LegendResult.notFound ("cannot find group:" ++ apos ++ "b" ++ apos) ∧
    graph2dGetLegend ["a"] "a" none none = LegendResult.delegated "a" 15 15 :=
  ⟨(claim_C10_getLegend ["a"] "b" none none).1 (by decide),
    ((claim_C10_getLegend ["a"] "a" none none).2 (by decide)).1⟩

end VisTimeline
